import Mathlib

/-!
# Key transform pipeline and fetch-through cache contract

A shallow embedding of `pkg/cache/cacher.go` and of `SaveSMSConfig` from
`pkg/database/sms_config.go`.

Go functions may observe and change the program state, so a Go function value
`func(string) (string, error)` is embedded as a state-passing function over an
arbitrary world state `σ`.  A Go result pair `(string, error)` is a Lean pair
`String × Option Error`, with `none` for the `nil` error.
-/

namespace Cache

/-- Go `error` values, identified by their message (`fmt.Errorf` builds one from a string). -/
structure Error where
  msg : String
deriving DecidableEq, Repr

/-- Go: `ErrMissingFetchFunc = fmt.Errorf("missing fetch function")`. -/
def ErrMissingFetchFunc : Error := ⟨"missing fetch function"⟩

/-- Go: `ErrNotFound = fmt.Errorf("key not found")`. -/
def ErrNotFound : Error := ⟨"key not found"⟩

/-- Go: `ErrStopped = fmt.Errorf("cacher is stopped")`. -/
def ErrStopped : Error := ⟨"cacher is stopped"⟩

/-- Go: `type KeyFunc func(string) (string, error)`.  The function receives the key and the
current world state and returns the result pair and the world state it leaves behind. -/
abbrev KeyFunc (σ : Type) := String → σ → (String × Option Error) × σ

/-- Go: `MultiKeyFunc(fns ...KeyFunc) KeyFunc`.  The returned closure ranges over `fns`,
reassigning `in, err = fn(in)` and returning `"", err` at the first non-nil `err`; after the
loop it returns `in, nil`. -/
def MultiKeyFunc {σ : Type} : List (KeyFunc σ) → KeyFunc σ
  | [], key, s => ((key, none), s)
  | fn :: rest, key, s =>
    match fn key s with
    | ((out, none), s1) => MultiKeyFunc rest out s1
    | ((_, some err), s1) => (("", some err), s1)

/-- Go: `PrefixKeyFunc(prefix string) KeyFunc`.  The closure prepends the constant when it is
not the empty string and always returns a nil error; it touches no state. -/
def PrefixKeyFunc {σ : Type} (pfx : String) : KeyFunc σ :=
  fun key s => ((if pfx ≠ "" then pfx ++ key else key, none), s)

/-- Go: `[]byte(in)`, the bytes of a string (its UTF-8 encoding); `len(in)` is their number. -/
def bytesOf (key : String) : List UInt8 :=
  key.data.flatMap String.utf8EncodeChar

/-- The digit table of Go's `fmt` package for `%x`: `"0123456789abcdef"`, by index. -/
def hexDigit (n : Nat) : Char :=
  "0123456789abcdef".data.getD n '0'

/-- Go: `fmt.Sprintf("%x", dig)` on a byte slice, as a list of characters: for each byte the
digit of its high four bits, then the digit of its low four bits. -/
def hexChars : List UInt8 → List Char
  | [] => []
  | c :: rest => hexDigit (c.toNat / 16) :: hexDigit (c.toNat % 16) :: hexChars rest

/-- Go: `fmt.Sprintf("%x", dig)` on a byte slice. -/
def hexEncode (dig : List UInt8) : String :=
  String.mk (hexChars dig)

/-- Go: the methods of the interface `hash.Hash` that `HashKeyFunc` calls, over the type `H` of
the states of a hash object.  `Write` returns the pair `(n, err)` and the state of the object
after the call; `Sum b` appends the digest of what was written to `b` and leaves the object
unchanged. -/
structure Hash (H : Type) where
  Write : H → List UInt8 → (Int × Option Error) × H
  Sum : H → List UInt8 → List UInt8

/-- Go: `HashKeyFunc(hasher func() hash.Hash) KeyFunc`.  The Go argument is given here by the
methods `impl` of the objects it returns and by the constructor `hasher` proper, a Go function
that runs in the world state and returns the state of a new hash object.  The closure builds a new
object on every invocation, writes the bytes of the key to it, returns `"", err` when `Write`
fails, returns `"", fmt.Errorf("only hashed %d of %d bytes", got, want)` when `got < want`,
and otherwise returns the `%x` rendering of `h.Sum(nil)` with a nil error. -/
def HashKeyFunc {σ H : Type} (impl : Hash H) (hasher : σ → H × σ) : KeyFunc σ :=
  fun key s =>
    match hasher s with
    | (h, s1) =>
      match impl.Write h (bytesOf key) with
      | ((_, some err), _) => (("", some err), s1)
      | ((n, none), h1) =>
        if n < ((bytesOf key).length : Int) then
          (("", some ⟨"only hashed " ++ toString n ++ " of " ++
            toString (bytesOf key).length ++ " bytes"⟩), s1)
        else
          ((hexEncode (impl.Sum h1 []), none), s1)

/-- A sample hash: the state is the list of bytes written so far, `Write` consumes everything
it is given, and the two-byte digest is the sum of the bytes and their number, both modulo 256. -/
def sumHash : Hash (List UInt8) where
  Write := fun h b => (((b.length : Int), none), h ++ b)
  Sum := fun h b =>
    b ++ [UInt8.ofNat (h.foldl (fun acc x => acc + x.toNat) 0 % 256), UInt8.ofNat (h.length % 256)]

/-- A sample hash whose `Write` drops the last byte and reports one byte fewer than supplied. -/
def shortHash : Hash (List UInt8) where
  Write := fun h b => (((b.length : Int) - 1, none), h ++ b.dropLast)
  Sum := sumHash.Sum

/-- A sample hash whose `Write` fails, reporting all bytes consumed. -/
def brokenHash : Hash (List UInt8) where
  Write := fun h b => (((b.length : Int), some ⟨"write failed"⟩), h)
  Sum := sumHash.Sum

/-- A sample constructor: returns the empty hash state and counts its calls in the world. -/
def newListHash : Nat → List UInt8 × Nat :=
  fun s => ([], s + 1)

/-- A sample stateful KeyFunc: appends `!` to the key and counts its invocations in the state. -/
def countingKeyFunc : KeyFunc Nat :=
  fun key s => ((key ++ "!", none), s + 1)

/-- A sample failing KeyFunc: returns a non-empty key together with the error `boom`, and counts
its invocations in the state. -/
def failingKeyFunc : KeyFunc Nat :=
  fun key s => ((key ++ "?", some ⟨"boom"⟩), s + 1)

/-! ## The Cacher contract

`cacher.go` declares `Cacher` as an interface; its implementations are not part of the files
embedded here.  The definitions below model an implementation from the specification. -/

/-- Go: `type FetchFunc func() (interface{}, error)`, over a type `V` of cached values. -/
abbrev FetchFunc (V : Type) := Unit → V × Option Error

/-- Modelled from the spec: the observable steps of a Cacher operation, which are the accesses
to the backend (get, set with a TTL, delete, close, §6 "a backend adapter must implement
get-bytes-by-key, set-bytes-by-key-with-ttl, delete-by-key, and a cleanup/close operation")
and the runs of a compute function. -/
inductive Event where
  | get (sk : String)
  | set (sk : String) (ttl : Nat)
  | delete (sk : String)
  | close
  | compute
deriving DecidableEq, Repr

/-- Modelled from the spec: a Cacher instance (§3 "created with a backend handle and a key
transform"; the implementations of the interface `Cacher` are missing from the sources).  The
lifecycle is the flag `closed`; the key transform is a KeyFunc without state (§3 "the mapping
from logical key to storage key is a pure function"); the backend is the in-memory reference store,
a list of entries `(storage key, value, expiry time)` whose operations do not fail; `trace`
records the backend accesses and compute runs performed so far. -/
structure Cacher (V : Type) where
  closed : Bool
  keyFunc : KeyFunc Unit
  entries : List (String × V × Nat)
  trace : List Event

/-- Modelled from the spec: the backend's get at time `now` (§3 an entry "is never observable
after its TTL has elapsed"): the value stored under `sk`, when there is one and the time is
before its expiry. -/
def Cacher.live {V : Type} (c : Cacher V) (now : Nat) (sk : String) : Option V :=
  match c.entries.find? (fun en => en.1 = sk) with
  | some (_, v, expiry) => if now < expiry then some v else none
  | none => none

/-- Modelled from the spec: the backend's set at time `now` (§4.2 "overwriting any existing
entry"): the entry under `sk` is replaced by `v` with expiry `now + ttl`. -/
def Cacher.put {V : Type} (c : Cacher V) (now : Nat) (sk : String) (v : V) (ttl : Nat) :
    List (String × V × Nat) :=
  (sk, v, now + ttl) :: c.entries.filter (fun en => en.1 ≠ sk)

/-- Modelled from the spec: `Fetch(key, destination, ttl, computeFn) -> error` at time `now`
(§4.2, §7, §8.6, §8.8).  A closed instance fails with `ErrStopped` and a nil `computeFn` with
`ErrMissingFetchFunc`, both without backend access; a key-transform error aborts before any
backend access; a live entry is delivered; on a miss `computeFn` runs, its error is returned
unchanged with nothing written, and its value is written with expiry `ttl` and then delivered.
The result is the error and the value delivered into `destination`, if any. -/
def Cacher.Fetch {V : Type} (c : Cacher V) (now : Nat) (key : String) (ttl : Nat)
    (computeFn : Option (FetchFunc V)) : (Option Error × Option V) × Cacher V :=
  if c.closed then ((some ErrStopped, none), c)
  else
    match computeFn with
    | none => ((some ErrMissingFetchFunc, none), c)
    | some fn =>
      match (c.keyFunc key ()).1 with
      | (_, some e) => ((some e, none), c)
      | (sk, none) =>
        match c.live now sk with
        | some v => ((none, some v), { c with trace := c.trace ++ [Event.get sk] })
        | none =>
          match fn () with
          | (_, some e) =>
            ((some e, none), { c with trace := c.trace ++ [Event.get sk, Event.compute] })
          | (v, none) =>
            ((none, some v),
              { c with
                entries := c.put now sk v ttl
                trace := c.trace ++ [Event.get sk, Event.compute, Event.set sk ttl] })

/-- Modelled from the spec: `Read(key, destination) -> error` at time `now` (§4.2): "Fails with
not found if absent or expired. Never invokes a compute function. Never mutates the backend." -/
def Cacher.Read {V : Type} (c : Cacher V) (now : Nat) (key : String) :
    (Option Error × Option V) × Cacher V :=
  if c.closed then ((some ErrStopped, none), c)
  else
    match (c.keyFunc key ()).1 with
    | (_, some e) => ((some e, none), c)
    | (sk, none) =>
      match c.live now sk with
      | some v => ((none, some v), { c with trace := c.trace ++ [Event.get sk] })
      | none => ((some ErrNotFound, none), { c with trace := c.trace ++ [Event.get sk] })

/-- Modelled from the spec: `Write(key, value, ttl) -> error` at time `now` (§4.2):
"unconditionally stores value under key with expiry ttl, overwriting any existing entry". -/
def Cacher.Write {V : Type} (c : Cacher V) (now : Nat) (key : String) (v : V) (ttl : Nat) :
    Option Error × Cacher V :=
  if c.closed then (some ErrStopped, c)
  else
    match (c.keyFunc key ()).1 with
    | (_, some e) => (some e, c)
    | (sk, none) =>
      (none, { c with entries := c.put now sk v ttl, trace := c.trace ++ [Event.set sk ttl] })

/-- Modelled from the spec: `Delete(key) -> error` (§4.2): "removes the entry for key if
present; deleting an absent key is not an error". -/
def Cacher.Delete {V : Type} (c : Cacher V) (key : String) : Option Error × Cacher V :=
  if c.closed then (some ErrStopped, c)
  else
    match (c.keyFunc key ()).1 with
    | (_, some e) => (some e, c)
    | (sk, none) =>
      (none, { c with
        entries := c.entries.filter (fun en => en.1 ≠ sk)
        trace := c.trace ++ [Event.delete sk] })

/-- Modelled from the spec: `Close() -> error` (§4.2): "releases backend resources and stale
entries, transitions the instance to closed"; a second call is a no-op. -/
def Cacher.Close {V : Type} (c : Cacher V) : Option Error × Cacher V :=
  if c.closed then (none, c)
  else (none, { c with closed := true, entries := [], trace := c.trace ++ [Event.close] })

/-- A sample open Cacher over strings with the identity key transform, holding `old` until
time 5. -/
def sampleCacher : Cacher String where
  closed := false
  keyFunc := MultiKeyFunc []
  entries := [("old", "payload", 5)]
  trace := []

/-! ## Specification-side notions for the pipeline -/

/-- Every step of `fns` succeeds on the value it receives: threading `k` from state `s`
through `fns` in order, the output of each step is the input of the next, and the last output
is `out`, reached in state `s'`. -/
inductive Threads {σ : Type} : List (KeyFunc σ) → String → σ → String → σ → Prop
  | nil (k : String) (s : σ) : Threads [] k s k s
  | cons (fn : KeyFunc σ) (rest : List (KeyFunc σ)) (k mid out : String) (s s1 s2 : σ) :
      fn k s = ((mid, none), s1) → Threads rest mid s1 out s2 → Threads (fn :: rest) k s out s2

/-- A KeyFunc seen as a Kleisli arrow of the `Except` monad on key/state pairs: a nil error is
`ok` with the new key, a non-nil error is `error`; either way the state reached is kept. -/
def KeyFunc.toKleisli {σ : Type} (fn : KeyFunc σ) :
    String × σ → Except (Error × σ) (String × σ) :=
  fun p =>
    match fn p.1 p.2 with
    | ((out, none), s1) => Except.ok (out, s1)
    | ((_, some e), s1) => Except.error (e, s1)

/-- The Kleisli left fold of a list of KeyFuncs starting from key `k` in state `s`. -/
def kleisliFold {σ : Type} (fns : List (KeyFunc σ)) (k : String) (s : σ) :
    Except (Error × σ) (String × σ) :=
  fns.foldlM (fun acc fn => fn.toKleisli acc) (k, s)

/-- A character of the lowercase hexadecimal alphabet `[0-9a-f]`. -/
def isLowerHex (c : Char) : Bool :=
  ('0' ≤ c && c ≤ '9') || ('a' ≤ c && c ≤ 'f')

/-- The value of a lowercase hexadecimal digit. -/
def hexVal (c : Char) : Option Nat :=
  if '0' ≤ c ∧ c ≤ '9' then some (c.toNat - '0'.toNat)
  else if 'a' ≤ c ∧ c ≤ 'f' then some (c.toNat - 'a'.toNat + 10)
  else none

/-- A step of a pipeline built from the two constructors `PrefixKeyFunc` and `HashKeyFunc`. -/
inductive Step (σ : Type) : Type 1
  | pfx (p : String)
  | hash (H : Type) (impl : Hash H) (hasher : σ → H × σ)

/-- The KeyFunc a step stands for. -/
def Step.toKeyFunc {σ : Type} : Step σ → KeyFunc σ
  | Step.pfx p => PrefixKeyFunc p
  | Step.hash _ impl hasher => HashKeyFunc impl hasher

/-- The hasher constructor of a hash step returns the same initial hash state on each call,
whatever the world state it is called in. -/
def Step.Fresh {σ : Type} : Step σ → Prop
  | Step.pfx _ => True
  | Step.hash _ _ hasher => ∀ s s1 : σ, (hasher s).1 = (hasher s1).1

/-- Successive invocations of one KeyFunc on a list of keys, each invocation starting in the
world state the previous one left behind; the list of the result pairs. -/
def invokeAll {σ : Type} (f : KeyFunc σ) : List String → σ → List (String × Option Error)
  | [], _ => []
  | k :: ks, s => (f k s).1 :: invokeAll f ks (f k s).2

/-- A sample pipeline: the prefix `t:` and then the sample hash, built by the counting
constructor. -/
def sampleSteps : List (Step Nat) :=
  [Step.pfx "t:", Step.hash (List UInt8) sumHash newListHash]

/-- An operation of the Cacher contract together with its arguments. -/
inductive Op (V : Type) where
  | fetch (now : Nat) (key : String) (ttl : Nat) (computeFn : Option (FetchFunc V))
  | read (now : Nat) (key : String)
  | write (now : Nat) (key : String) (v : V) (ttl : Nat)
  | delete (key : String)
  | close

/-- The Cacher an operation leaves behind. -/
def Cacher.step {V : Type} (c : Cacher V) : Op V → Cacher V
  | Op.fetch now key ttl computeFn => (c.Fetch now key ttl computeFn).2
  | Op.read now key => (c.Read now key).2
  | Op.write now key v ttl => (c.Write now key v ttl).2
  | Op.delete key => (c.Delete key).2
  | Op.close => c.Close.2

/-- The Cacher a sequence of operations, performed in order, leaves behind. -/
def Cacher.run {V : Type} (c : Cacher V) (ops : List (Op V)) : Cacher V :=
  ops.foldl Cacher.step c

/-! ## SMS configuration records (`pkg/database/sms_config.go`) -/

/-- Go: `gorm.Model`, the fields every record embeds; `ID` is a `uint`, the times are instants
and `DeletedAt` is a pointer that may be nil. -/
structure Model where
  ID : Nat
  CreatedAt : Nat
  UpdatedAt : Nat
  DeletedAt : Option Nat
deriving DecidableEq, Repr

/-- Go: `type SMSConfig struct`.  The embedded `Errorable` is declared elsewhere in the
package and is taken as a parameter `E`; `sms.ProviderType` is a string type. -/
structure SMSConfig (E : Type) where
  Model : Model
  Errorable : E
  RealmID : Nat
  ProviderType : String
  TwilioAccountSid : String
  TwilioFromNumber : String
  TwilioAuthToken : String
  TwilioAuthTokenPlaintextCache : String
  TwilioAuthTokenCiphertextCache : String
deriving DecidableEq, Repr

/-- Go: the two operations of the `*gorm.DB` handle that `SaveSMSConfig` calls, each followed by
the read of the field `Error` of the handle it returns.  An operation receives the record and
the world state (the database, and the record behind the pointer) and returns the error and
the world state it leaves behind. -/
structure GormDB (E σ : Type) where
  Create : SMSConfig E → σ → Option Error × σ
  Save : SMSConfig E → σ → Option Error × σ

/-- Go: `type Database struct`, of which only the field `db *gorm.DB` is used here. -/
structure Database (E σ : Type) where
  db : GormDB E σ

/-- Go: `func (db *Database) SaveSMSConfig(s *SMSConfig) error`: `db.db.Create(s).Error` when
`s.Model.ID == 0`, and `db.db.Save(s).Error` otherwise. -/
def Database.SaveSMSConfig {E σ : Type} (db : Database E σ) (s : SMSConfig E) :
    σ → Option Error × σ :=
  fun w =>
    if s.Model.ID = 0 then db.db.Create s w
    else db.db.Save s w

/-- A database operation as a recording handle logs it. -/
inductive DBOp (E : Type) where
  | create (s : SMSConfig E)
  | save (s : SMSConfig E)
deriving DecidableEq, Repr

/-- A handle whose world state is the log of the operations issued so far: each operation
appends itself to the log and reports the error `outcome` assigns to it. -/
def recordingDB {E : Type} (outcome : DBOp E → Option Error) : Database E (List (DBOp E)) where
  db :=
    { Create := fun s log => (outcome (DBOp.create s), log ++ [DBOp.create s])
      Save := fun s log => (outcome (DBOp.save s), log ++ [DBOp.save s]) }

/-- A sample record with the given ID. -/
def sampleSMSConfig (id : Nat) : SMSConfig Unit where
  Model := { ID := id, CreatedAt := 0, UpdatedAt := 0, DeletedAt := none }
  Errorable := ()
  RealmID := 1
  ProviderType := "TWILIO"
  TwilioAccountSid := "sid"
  TwilioFromNumber := "+15005550006"
  TwilioAuthToken := "token"
  TwilioAuthTokenPlaintextCache := ""
  TwilioAuthTokenCiphertextCache := ""

/-! ## Shared lemmas on `MultiKeyFunc` -/

theorem MultiKeyFunc_nil {σ : Type} (k : String) (s : σ) :
    MultiKeyFunc ([] : List (KeyFunc σ)) k s = ((k, none), s) := rfl

theorem MultiKeyFunc_cons_ok {σ : Type} (fn : KeyFunc σ) (rest : List (KeyFunc σ))
    (k out : String) (s s1 : σ) (h : fn k s = ((out, none), s1)) :
    MultiKeyFunc (fn :: rest) k s = MultiKeyFunc rest out s1 := by
  simp [MultiKeyFunc, h]

theorem MultiKeyFunc_cons_err {σ : Type} (fn : KeyFunc σ) (rest : List (KeyFunc σ))
    (k out : String) (e : Error) (s s1 : σ) (h : fn k s = ((out, some e), s1)) :
    MultiKeyFunc (fn :: rest) k s = (("", some e), s1) := by
  simp [MultiKeyFunc, h]

/-- The pipeline, seen as a Kleisli arrow, is the Kleisli left fold of its steps. -/
theorem MultiKeyFunc_toKleisli {σ : Type} (fns : List (KeyFunc σ)) (k : String) (s : σ) :
    (MultiKeyFunc fns).toKleisli (k, s) = kleisliFold fns k s := by
  induction fns generalizing k s with
  | nil => simp [KeyFunc.toKleisli, MultiKeyFunc, kleisliFold, pure, Except.pure]
  | cons fn rest ih =>
    have ih2 := ih
    simp only [KeyFunc.toKleisli, kleisliFold] at ih2 ⊢
    rcases hfn : fn k s with ⟨⟨out, _ | e⟩, s1⟩
    · simp [MultiKeyFunc, hfn, List.foldlM_cons, KeyFunc.toKleisli, bind, Except.bind, ih2]
    · simp [MultiKeyFunc, hfn, List.foldlM_cons, KeyFunc.toKleisli, bind, Except.bind]

/-- Threading through a successful prefix of the pipeline and then running the rest. -/
theorem MultiKeyFunc_append_of_threads {σ : Type} (pre post : List (KeyFunc σ))
    (k mid : String) (s s1 : σ) (h : Threads pre k s mid s1) :
    MultiKeyFunc (pre ++ post) k s = MultiKeyFunc post mid s1 := by
  induction h with
  | nil k s => rfl
  | cons fn rest k mid out s s1 s2 hfn _ ih =>
    rw [List.cons_append, MultiKeyFunc_cons_ok fn _ k mid s s1 hfn, ih]

/-! ## Shared lemmas on the hexadecimal rendering -/

theorem hexDigit_isLowerHex : ∀ n, n < 16 → isLowerHex (hexDigit n) = true := by decide

theorem hexVal_hexDigit : ∀ n, n < 16 → hexVal (hexDigit n) = some n := by decide

theorem hexChars_length (bs : List UInt8) : (hexChars bs).length = 2 * bs.length := by
  induction bs with
  | nil => rfl
  | cons b rest ih => simp [hexChars, ih]; omega

theorem hexChars_isLowerHex (bs : List UInt8) : ∀ c ∈ hexChars bs, isLowerHex c = true := by
  induction bs with
  | nil => simp [hexChars]
  | cons b rest ih =>
    intro c hc
    have hb := UInt8.toNat_lt_size b
    simp only [UInt8.size] at hb
    simp only [hexChars, List.mem_cons] at hc
    rcases hc with rfl | rfl | hc
    · exact hexDigit_isLowerHex _ (by omega)
    · exact hexDigit_isLowerHex _ (by omega)
    · exact ih c hc

theorem hexChars_getElem? (bs : List UInt8) (i : Nat) (b : UInt8) (hb : bs[i]? = some b) :
    (hexChars bs)[2 * i]? = some (hexDigit (b.toNat / 16)) ∧
      (hexChars bs)[2 * i + 1]? = some (hexDigit (b.toNat % 16)) := by
  induction bs generalizing i with
  | nil => simp at hb
  | cons c rest ih =>
    cases i with
    | zero =>
      simp at hb
      subst hb
      simp [hexChars]
    | succ j =>
      simp at hb
      have := ih j hb
      have e1 : 2 * (j + 1) = 2 * j + 1 + 1 := by omega
      rw [e1]
      simpa [hexChars] using this

/-! ## Shared lemmas on `PrefixKeyFunc` and `HashKeyFunc` -/

/-- The key `PrefixKeyFunc` returns is always the concatenation. -/
theorem PrefixKeyFunc_eq {σ : Type} (p k : String) (s : σ) :
    PrefixKeyFunc p k s = ((p ++ k, none), s) := by
  by_cases hp : p = ""
  · subst hp
    simp [PrefixKeyFunc]
  · simp [PrefixKeyFunc, hp]

/-- The success path of `HashKeyFunc`. -/
theorem HashKeyFunc_ok {σ H : Type} (impl : Hash H) (hasher : σ → H × σ)
    (k : String) (s : σ) (n : Int) (h1 : H)
    (hw : impl.Write (hasher s).1 (bytesOf k) = ((n, none), h1))
    (hn : ((bytesOf k).length : Int) ≤ n) :
    HashKeyFunc impl hasher k s = ((hexEncode (impl.Sum h1 []), none), (hasher s).2) := by
  rcases hh : hasher s with ⟨h, s1⟩
  rw [hh] at hw
  simp only [HashKeyFunc, hh, hw]
  rw [if_neg (by omega)]

/-- The three outcomes of `HashKeyFunc`, by the result of `Write`. -/
theorem HashKeyFunc_cases {σ H : Type} (impl : Hash H) (hasher : σ → H × σ)
    (k : String) (s : σ) :
    (∃ (n : Int) (e : Error) (h1 : H),
        impl.Write (hasher s).1 (bytesOf k) = ((n, some e), h1) ∧
        HashKeyFunc impl hasher k s = (("", some e), (hasher s).2)) ∨
      (∃ (n : Int) (h1 : H), impl.Write (hasher s).1 (bytesOf k) = ((n, none), h1) ∧
        n < ((bytesOf k).length : Int) ∧
        HashKeyFunc impl hasher k s =
          (("", some ⟨"only hashed " ++ toString n ++ " of " ++
            toString (bytesOf k).length ++ " bytes"⟩), (hasher s).2)) ∨
      (∃ (n : Int) (h1 : H), impl.Write (hasher s).1 (bytesOf k) = ((n, none), h1) ∧
        ((bytesOf k).length : Int) ≤ n ∧
        HashKeyFunc impl hasher k s = ((hexEncode (impl.Sum h1 []), none), (hasher s).2)) := by
  rcases hh : hasher s with ⟨h, s1⟩
  rcases hw : impl.Write h (bytesOf k) with ⟨⟨n, _ | e⟩, h1⟩
  · by_cases hn : n < ((bytesOf k).length : Int)
    · exact Or.inr (Or.inl ⟨n, h1, rfl, hn, by simp [HashKeyFunc, hh, hw, hn]⟩)
    · exact Or.inr (Or.inr ⟨n, h1, rfl, by omega, by simp [HashKeyFunc, hh, hw, hn]⟩)
  · exact Or.inl ⟨n, e, h1, rfl, by simp [HashKeyFunc, hh, hw]⟩

/-- A failing `HashKeyFunc` returns the empty string as key. -/
theorem HashKeyFunc_err_key {σ H : Type} (impl : Hash H) (hasher : σ → H × σ)
    (k out : String) (e : Error) (s s1 : σ)
    (h : HashKeyFunc impl hasher k s = ((out, some e), s1)) : out = "" := by
  rcases HashKeyFunc_cases impl hasher k s with ⟨n, e1, h1, _, hr⟩ | ⟨n, h1, _, _, hr⟩ |
    ⟨n, h1, _, _, hr⟩
  · rw [hr] at h
    simp only [Prod.mk.injEq] at h
    exact h.1.1.symm
  · rw [hr] at h
    simp only [Prod.mk.injEq] at h
    exact h.1.1.symm
  · rw [hr] at h
    simp at h

/-- Prefixing and then hashing is hashing the concatenation. -/
theorem MultiKeyFunc_prefix_hash_eq {σ H : Type} (impl : Hash H) (hasher : σ → H × σ)
    (p k : String) (s : σ) :
    MultiKeyFunc [PrefixKeyFunc p, HashKeyFunc impl hasher] k s
      = HashKeyFunc impl hasher (p ++ k) s := by
  rw [MultiKeyFunc_cons_ok _ _ k (p ++ k) s s (PrefixKeyFunc_eq p k s)]
  rcases hr : HashKeyFunc impl hasher (p ++ k) s with ⟨⟨out, _ | e⟩, s1⟩
  · rw [MultiKeyFunc_cons_ok _ _ _ out s s1 hr, MultiKeyFunc_nil]
  · rw [MultiKeyFunc_cons_err _ _ _ out e s s1 hr,
      HashKeyFunc_err_key impl hasher (p ++ k) out e s s1 hr]

/-- The result pair of `HashKeyFunc` depends on the world only through the hash state the
constructor returns. -/
theorem HashKeyFunc_result_of_init {σ H : Type} (impl : Hash H) (hasher : σ → H × σ)
    (k : String) (s s1 : σ) (h : (hasher s).1 = (hasher s1).1) :
    (HashKeyFunc impl hasher k s).1 = (HashKeyFunc impl hasher k s1).1 := by
  rcases hh : hasher s with ⟨a, t⟩
  rcases hh1 : hasher s1 with ⟨a1, t1⟩
  rw [hh, hh1] at h
  simp only at h
  subst h
  rcases hw : impl.Write a (bytesOf k) with ⟨⟨n, _ | e⟩, h1⟩
  · by_cases hn : n < ((bytesOf k).length : Int)
    · simp [HashKeyFunc, hh, hh1, hw, hn]
    · simp [HashKeyFunc, hh, hh1, hw, hn]
  · simp [HashKeyFunc, hh, hh1, hw]

/-- The result pair of a fresh step does not depend on the world state. -/
theorem Step_result_indep {σ : Type} (st : Step σ) (hst : st.Fresh) (k : String) (s s1 : σ) :
    (st.toKeyFunc k s).1 = (st.toKeyFunc k s1).1 := by
  cases st with
  | pfx p => simp [Step.toKeyFunc, PrefixKeyFunc_eq]
  | hash H impl hasher => exact HashKeyFunc_result_of_init impl hasher k s s1 (hst s s1)

/-- The result pair of a pipeline of fresh steps does not depend on the world state. -/
theorem pipeline_result_indep {σ : Type} (steps : List (Step σ))
    (hfresh : ∀ st ∈ steps, st.Fresh) (k : String) (s s1 : σ) :
    (MultiKeyFunc (steps.map Step.toKeyFunc) k s).1
      = (MultiKeyFunc (steps.map Step.toKeyFunc) k s1).1 := by
  induction steps generalizing k s s1 with
  | nil => rfl
  | cons st rest ih =>
    have hst := Step_result_indep st (hfresh st (List.mem_cons_self _ _)) k s s1
    have hrest : ∀ st1 ∈ rest, st1.Fresh := fun st1 h1 => hfresh st1 (List.mem_cons_of_mem _ h1)
    rcases hr : st.toKeyFunc k s with ⟨⟨out, _ | e⟩, t⟩
    · rcases hr1 : st.toKeyFunc k s1 with ⟨⟨out1, err1⟩, t1⟩
      rw [hr, hr1] at hst
      simp only [Prod.mk.injEq] at hst
      obtain ⟨rfl, rfl⟩ := hst
      rw [List.map_cons, MultiKeyFunc_cons_ok _ _ k out s t hr,
        MultiKeyFunc_cons_ok _ _ k out s1 t1 hr1]
      exact ih hrest out t t1
    · rcases hr1 : st.toKeyFunc k s1 with ⟨⟨out1, err1⟩, t1⟩
      rw [hr, hr1] at hst
      simp only [Prod.mk.injEq] at hst
      obtain ⟨rfl, rfl⟩ := hst
      rw [List.map_cons, MultiKeyFunc_cons_err _ _ k out e s t hr,
        MultiKeyFunc_cons_err _ _ k out e s1 t1 hr1]

/-- Each result of a run of invocations is the result of invoking the KeyFunc on that key in
some world state. -/
theorem invokeAll_getElem? {σ : Type} (f : KeyFunc σ) (ks : List String) (s : σ) (i : Nat)
    (k : String) (hi : ks[i]? = some k) :
    ∃ t : σ, (invokeAll f ks s)[i]? = some (f k t).1 := by
  induction ks generalizing s i with
  | nil => simp at hi
  | cons k0 rest ih =>
    cases i with
    | zero =>
      simp at hi
      subst hi
      exact ⟨s, by simp [invokeAll]⟩
    | succ j =>
      simp at hi
      obtain ⟨t, ht⟩ := ih (f k0 s).2 j hi
      exact ⟨t, by simpa [invokeAll] using ht⟩

/-- The steps of the sample pipeline are fresh. -/
theorem sampleSteps_fresh : ∀ st ∈ sampleSteps, st.Fresh := by
  intro st hst
  simp only [sampleSteps, List.mem_cons, List.mem_singleton, List.not_mem_nil, or_false] at hst
  rcases hst with rfl | rfl
  · exact True.intro
  · intro s s1
    rfl

/-- A run of the sample pipeline: the constructor is called three times, and the two
invocations on `abc` return the same key. -/
theorem invokeAll_sampleSteps_eval :
    invokeAll (MultiKeyFunc (sampleSteps.map Step.toKeyFunc)) ["abc", "zz", "abc"] 0
      = [("d405", none), ("a204", none), ("d405", none)] := by decide

/-- The sample hash on `"abc"`: bytes 97, 98, 99 sum to 294 = 256 + 38, and there are 3. -/
theorem HashKeyFunc_sumHash_eval :
    HashKeyFunc sumHash newListHash "abc" 0 = (("2603", none), 1) := by decide

/-- A short write is reported with the two counts. -/
theorem HashKeyFunc_shortHash_eval :
    HashKeyFunc shortHash newListHash "abc" 0
      = (("", some ⟨"only hashed 2 of 3 bytes"⟩), 1) := by decide

/-- An error of `Write` is returned as it is. -/
theorem HashKeyFunc_brokenHash_eval :
    HashKeyFunc brokenHash newListHash "abc" 0 = (("", some ⟨"write failed"⟩), 1) := by decide

/-! ## Further shared lemmas -/

theorem hexDigit_inj : ∀ m, m < 16 → ∀ n, n < 16 → hexDigit m = hexDigit n → m = n := by
  decide

/-- The `%x` rendering determines the bytes. -/
theorem hexChars_inj (a b : List UInt8) (h : hexChars a = hexChars b) : a = b := by
  induction a generalizing b with
  | nil =>
    cases b with
    | nil => rfl
    | cons y ys => simp [hexChars] at h
  | cons x xs ih =>
    cases b with
    | nil => simp [hexChars] at h
    | cons y ys =>
      simp only [hexChars, List.cons.injEq] at h
      obtain ⟨hhi, hlo, hrest⟩ := h
      have hx := UInt8.toNat_lt_size x
      have hy := UInt8.toNat_lt_size y
      simp only [UInt8.size] at hx hy
      have e1 := hexDigit_inj _ (by omega) _ (by omega) hhi
      have e2 := hexDigit_inj _ (by omega) _ (by omega) hlo
      have hxy : x = y := UInt8.ext_iff.mpr (by omega)
      rw [hxy, ih ys hrest]

theorem hexEncode_inj (a b : List UInt8) (h : hexEncode a = hexEncode b) : a = b := by
  apply hexChars_inj
  exact congrArg String.data h

theorem bytesOf_append (p k : String) : bytesOf (p ++ k) = bytesOf p ++ bytesOf k := by
  simp [bytesOf, String.data_append, List.flatMap_append]

/-- Appending the steps of two pipelines is running the first pipeline and then the second. -/
theorem MultiKeyFunc_append {σ : Type} (fs gs : List (KeyFunc σ)) (k : String) (s : σ) :
    MultiKeyFunc (fs ++ gs) k s =
      match MultiKeyFunc fs k s with
      | ((out, none), s1) => MultiKeyFunc gs out s1
      | ((_, some e), s1) => (("", some e), s1) := by
  induction fs generalizing k s with
  | nil => simp [MultiKeyFunc]
  | cons f rest ih =>
    rcases hf : f k s with ⟨⟨out, _ | e⟩, s1⟩
    · rw [List.cons_append, MultiKeyFunc_cons_ok f _ k out s s1 hf,
        MultiKeyFunc_cons_ok f _ k out s s1 hf]
      exact ih out s1
    · rw [List.cons_append, MultiKeyFunc_cons_err f _ k out e s s1 hf,
        MultiKeyFunc_cons_err f _ k out e s s1 hf]

/-- A pipeline of one step. -/
theorem MultiKeyFunc_singleton {σ : Type} (f : KeyFunc σ) (k : String) (s : σ) :
    MultiKeyFunc [f] k s =
      match f k s with
      | ((out, none), s1) => ((out, none), s1)
      | ((_, some e), s1) => (("", some e), s1) := by
  rcases hf : f k s with ⟨⟨out, _ | e⟩, s1⟩
  · rw [MultiKeyFunc_cons_ok f _ k out s s1 hf, MultiKeyFunc_nil]
  · rw [MultiKeyFunc_cons_err f _ k out e s s1 hf]

/-- A failing pipeline returns the empty string as key. -/
theorem MultiKeyFunc_err_key {σ : Type} (fns : List (KeyFunc σ)) (k out : String) (e : Error)
    (s s1 : σ) (h : MultiKeyFunc fns k s = ((out, some e), s1)) : out = "" := by
  induction fns generalizing k s with
  | nil => simp [MultiKeyFunc] at h
  | cons f rest ih =>
    rcases hf : f k s with ⟨⟨o, _ | e1⟩, t⟩
    · rw [MultiKeyFunc_cons_ok f _ k o s t hf] at h
      exact ih o t h
    · rw [MultiKeyFunc_cons_err f _ k o e1 s t hf] at h
      simp only [Prod.mk.injEq] at h
      exact h.1.1.symm

/-! ## The claims -/

/-- C1: if every step of `fns` succeeds on the value it receives (the output of step `i` being
the input of step `i+1`, ending in `out`), then `MultiKeyFunc fns k` returns `out` with a nil
error, and this is the result of the Kleisli left fold of `fns` from `k`. -/
theorem MultiKeyFunc_threads_all {σ : Type} (fns : List (KeyFunc σ)) (k out : String)
    (s s1 : σ) (h : Threads fns k s out s1) :
    MultiKeyFunc fns k s = ((out, none), s1) ∧ kleisliFold fns k s = Except.ok (out, s1) := by
  have hm : MultiKeyFunc fns k s = ((out, none), s1) := by
    have := MultiKeyFunc_append_of_threads fns [] k out s s1 h
    simpa [MultiKeyFunc_nil] using this
  refine ⟨hm, ?_⟩
  rw [← MultiKeyFunc_toKleisli]
  simp [KeyFunc.toKleisli, hm]

theorem MultiKeyFunc_threads_all_witness :
    Threads [PrefixKeyFunc "t:", countingKeyFunc] "abc" 0 "t:abc!" 1 ∧
      (MultiKeyFunc [PrefixKeyFunc "t:", countingKeyFunc] "abc" 0 = (("t:abc!", none), 1) ∧
        kleisliFold [PrefixKeyFunc "t:", countingKeyFunc] "abc" 0 = Except.ok ("t:abc!", 1)) :=
  have h : Threads [PrefixKeyFunc "t:", countingKeyFunc] "abc" 0 "t:abc!" 1 :=
    Threads.cons _ _ "abc" "t:abc" "t:abc!" 0 0 1 (by decide)
      (Threads.cons _ _ "t:abc" "t:abc!" "t:abc!" 0 1 1 (by decide) (Threads.nil _ _))
  ⟨h, MultiKeyFunc_threads_all _ _ _ _ _ h⟩

/-- C2: if threading `k` through the steps before step `j` succeeds and step `j` fails with
error `e` (whatever key it returns alongside), then `MultiKeyFunc` returns the empty string
together with exactly `e`, in the state step `j` left behind, whatever the steps after `j`
are: they are not run and the result does not depend on them. -/
theorem MultiKeyFunc_first_error {σ : Type} (pre : List (KeyFunc σ)) (f : KeyFunc σ)
    (k mid junk : String) (e : Error) (s s1 s2 : σ)
    (hpre : Threads pre k s mid s1) (hf : f mid s1 = ((junk, some e), s2)) :
    ∀ post : List (KeyFunc σ), MultiKeyFunc (pre ++ f :: post) k s = (("", some e), s2) := by
  intro post
  rw [MultiKeyFunc_append_of_threads pre (f :: post) k mid s s1 hpre]
  exact MultiKeyFunc_cons_err f post mid junk e s1 s2 hf

theorem MultiKeyFunc_first_error_witness :
    Threads [PrefixKeyFunc "t:", countingKeyFunc] "abc" 0 "t:abc!" 1 ∧
      failingKeyFunc "t:abc!" 1 = (("t:abc!?", some ⟨"boom"⟩), 2) ∧
      ∀ post : List (KeyFunc Nat),
        MultiKeyFunc ([PrefixKeyFunc "t:", countingKeyFunc] ++ failingKeyFunc :: post) "abc" 0
          = (("", some ⟨"boom"⟩), 2) :=
  have h : Threads [PrefixKeyFunc "t:", countingKeyFunc] "abc" 0 "t:abc!" 1 :=
    Threads.cons _ _ "abc" "t:abc" "t:abc!" 0 0 1 (by decide)
      (Threads.cons _ _ "t:abc" "t:abc!" "t:abc!" 0 1 1 (by decide) (Threads.nil _ _))
  have hf : failingKeyFunc "t:abc!" 1 = (("t:abc!?", some ⟨"boom"⟩), 2) := by decide
  ⟨h, hf, MultiKeyFunc_first_error _ _ _ _ "t:abc!?" _ _ _ _ h hf⟩

/-- C3: `PrefixKeyFunc p k` never returns an error and leaves the state alone; for a non-empty
`p` the key returned is `p ++ k`, and for the empty `p` it is `k` unchanged. -/
theorem PrefixKeyFunc_spec {σ : Type} (p k : String) (s : σ) :
    (PrefixKeyFunc p k s).1.2 = none ∧
      (p ≠ "" → (PrefixKeyFunc p k s).1.1 = p ++ k) ∧
      (p = "" → (PrefixKeyFunc p k s).1.1 = k) ∧
      (PrefixKeyFunc p k s).2 = s := by
  refine ⟨rfl, ?_, ?_, rfl⟩
  · intro hp
    simp [PrefixKeyFunc, hp]
  · intro hp
    simp [PrefixKeyFunc, hp]

/-- C4: when the `Write` of the hash object built by `hasher` reports all the bytes of `k`
consumed (`n` at least their number) with a nil error, `HashKeyFunc` succeeds and returns the
`%x` rendering of `Sum(nil)` of that object after the write: twice as many characters as the
digest has bytes, all of them in `[0-9a-f]`, the characters `2i` and `2i+1` being the digits
of the high and the low four bits of digest byte `i`. -/
theorem HashKeyFunc_hex_digest {σ H : Type} (impl : Hash H) (hasher : σ → H × σ)
    (k : String) (s : σ) (n : Int) (h1 : H)
    (hw : impl.Write (hasher s).1 (bytesOf k) = ((n, none), h1))
    (hn : ((bytesOf k).length : Int) ≤ n) :
    HashKeyFunc impl hasher k s = ((hexEncode (impl.Sum h1 []), none), (hasher s).2) ∧
      (hexEncode (impl.Sum h1 [])).length = 2 * (impl.Sum h1 []).length ∧
      (∀ c ∈ (hexEncode (impl.Sum h1 [])).data, isLowerHex c = true) ∧
      (∀ (i : Nat) (b : UInt8), (impl.Sum h1 [])[i]? = some b →
        ((hexEncode (impl.Sum h1 [])).data[2 * i]?).bind hexVal = some (b.toNat / 16) ∧
        ((hexEncode (impl.Sum h1 [])).data[2 * i + 1]?).bind hexVal = some (b.toNat % 16)) := by
  refine ⟨HashKeyFunc_ok impl hasher k s n h1 hw hn, ?_, ?_, ?_⟩
  · simp [hexEncode, String.length, hexChars_length]
  · intro c hc
    exact hexChars_isLowerHex _ c hc
  · intro i b hb
    have hlt := UInt8.toNat_lt_size b
    simp only [UInt8.size] at hlt
    obtain ⟨h2, h3⟩ := hexChars_getElem? _ i b hb
    simp only [hexEncode, h2, h3, Option.some_bind]
    exact ⟨hexVal_hexDigit _ (by omega), hexVal_hexDigit _ (by omega)⟩

theorem HashKeyFunc_hex_digest_witness :
    sumHash.Write (newListHash 0).1 (bytesOf "abc") = ((3, none), [97, 98, 99]) ∧
      (((bytesOf "abc").length : Int) ≤ 3) ∧
      (HashKeyFunc sumHash newListHash "abc" 0
          = ((hexEncode (sumHash.Sum [97, 98, 99] []), none), (newListHash 0).2) ∧
        (hexEncode (sumHash.Sum [97, 98, 99] [])).length
          = 2 * (sumHash.Sum [97, 98, 99] []).length ∧
        (∀ c ∈ (hexEncode (sumHash.Sum [97, 98, 99] [])).data, isLowerHex c = true) ∧
        (∀ (i : Nat) (b : UInt8), (sumHash.Sum [97, 98, 99] [])[i]? = some b →
          ((hexEncode (sumHash.Sum [97, 98, 99] [])).data[2 * i]?).bind hexVal
            = some (b.toNat / 16) ∧
          ((hexEncode (sumHash.Sum [97, 98, 99] [])).data[2 * i + 1]?).bind hexVal
            = some (b.toNat % 16))) :=
  ⟨by decide, by decide,
    HashKeyFunc_hex_digest sumHash newListHash "abc" 0 3 [97, 98, 99] (by decide) (by decide)⟩

/-- C5: `HashKeyFunc` returns a non-nil error exactly when the `Write` of the object built by
`hasher` returns a non-nil error or reports fewer bytes than the key has; an error of `Write`
is returned as it is, also when the count is short; and every failing result carries the
empty string as key. -/
theorem HashKeyFunc_error_iff {σ H : Type} (impl : Hash H) (hasher : σ → H × σ)
    (k : String) (s : σ) :
    ((HashKeyFunc impl hasher k s).1.2 ≠ none ↔
        ((impl.Write (hasher s).1 (bytesOf k)).1.2 ≠ none ∨
          (impl.Write (hasher s).1 (bytesOf k)).1.1 < ((bytesOf k).length : Int))) ∧
      (∀ e : Error, (impl.Write (hasher s).1 (bytesOf k)).1.2 = some e →
        (HashKeyFunc impl hasher k s).1 = ("", some e)) ∧
      ((HashKeyFunc impl hasher k s).1.2 ≠ none → (HashKeyFunc impl hasher k s).1.1 = "") := by
  rcases hh : hasher s with ⟨h, s1⟩
  rcases hw : impl.Write h (bytesOf k) with ⟨⟨n, _ | e⟩, h1⟩
  · by_cases hn : n < ((bytesOf k).length : Int)
    · simp [HashKeyFunc, hh, hw, hn]
    · simp [HashKeyFunc, hh, hw, hn]
  · simp [HashKeyFunc, hh, hw]

/-- C6: prefixing and then hashing is hashing the prefixed key: the two-step pipeline returns
what `HashKeyFunc` returns on `p ++ k`, for every hasher; with a hasher whose `Write` consumes
the bytes of `p ++ k` this is the `%x` rendering of the digest of `p ++ k`; and for `p = "t:"`
and `k = "abc"` the key hashed is `"t:abc"`, so that with a hasher whose `Write` consumes its
five bytes the storage key is the `%x` rendering of their digest. -/
theorem MultiKeyFunc_prefix_hash {σ H : Type} (impl : Hash H) (hasher : σ → H × σ)
    (p k : String) (s : σ) :
    MultiKeyFunc [PrefixKeyFunc p, HashKeyFunc impl hasher] k s
        = HashKeyFunc impl hasher (p ++ k) s ∧
      (∀ (n : Int) (h1 : H), impl.Write (hasher s).1 (bytesOf (p ++ k)) = ((n, none), h1) →
        ((bytesOf (p ++ k)).length : Int) ≤ n →
        MultiKeyFunc [PrefixKeyFunc p, HashKeyFunc impl hasher] k s
          = ((hexEncode (impl.Sum h1 []), none), (hasher s).2)) ∧
      MultiKeyFunc [PrefixKeyFunc "t:", HashKeyFunc impl hasher] "abc" s
        = HashKeyFunc impl hasher "t:abc" s ∧
      (∀ (n : Int) (h1 : H), impl.Write (hasher s).1 [116, 58, 97, 98, 99] = ((n, none), h1) →
        5 ≤ n →
        MultiKeyFunc [PrefixKeyFunc "t:", HashKeyFunc impl hasher] "abc" s
          = ((hexEncode (impl.Sum h1 []), none), (hasher s).2)) := by
  refine ⟨MultiKeyFunc_prefix_hash_eq impl hasher p k s, ?_,
    MultiKeyFunc_prefix_hash_eq impl hasher "t:" "abc" s, ?_⟩
  · intro n h1 hw hn
    rw [MultiKeyFunc_prefix_hash_eq impl hasher p k s]
    exact HashKeyFunc_ok impl hasher (p ++ k) s n h1 hw hn
  · intro n h1 hw hn
    rw [MultiKeyFunc_prefix_hash_eq impl hasher "t:" "abc" s]
    have hb : bytesOf ("t:" ++ "abc") = [116, 58, 97, 98, 99] := by decide
    exact HashKeyFunc_ok impl hasher ("t:" ++ "abc") s n h1 (by rw [hb]; exact hw)
      (by rw [hb]; exact hn)

/-- C7, as stated, fails: the distinct prefixes `a` and `ab` send the keys `bc` and `c` to the
same string `abc`. -/
theorem PrefixKeyFunc_distinct_prefixes_collide :
    ("a" : String) ≠ "ab" ∧
      (PrefixKeyFunc "a" "bc" () : (String × Option Error) × Unit) = PrefixKeyFunc "ab" "c" () := by
  decide

/-- C7, amended: the keys two prefixes produce never coincide, whatever the keys, exactly when
neither prefix is an initial segment of the other. -/
theorem PrefixKeyFunc_isolation_iff {σ : Type} (p1 p2 : String) (s1 s2 : σ) :
    (∀ k1 k2 : String, (PrefixKeyFunc p1 k1 s1).1 ≠ (PrefixKeyFunc p2 k2 s2).1) ↔
      ((∀ t : String, p2 ≠ p1 ++ t) ∧ (∀ t : String, p1 ≠ p2 ++ t)) := by
  constructor
  · intro h
    constructor
    · intro t ht
      apply h t ""
      rw [PrefixKeyFunc_eq, PrefixKeyFunc_eq, ht]
      simp
    · intro t ht
      apply h "" t
      rw [PrefixKeyFunc_eq, PrefixKeyFunc_eq, ht]
      simp
  · rintro ⟨h1, h2⟩ k1 k2 heq
    rw [PrefixKeyFunc_eq, PrefixKeyFunc_eq] at heq
    simp only [Prod.mk.injEq, and_true] at heq
    have hd : p1.data ++ k1.data = p2.data ++ k2.data := by
      have := congrArg String.data heq
      simpa [String.data_append] using this
    rcases List.append_eq_append_iff.mp hd with ⟨a, ha, _⟩ | ⟨c, hc, _⟩
    · exact h1 (String.mk a) (String.ext (by simpa [String.data_append] using ha))
    · exact h2 (String.mk c) (String.ext (by simpa [String.data_append] using hc))

/-- C8: for a pipeline built with `MultiKeyFunc` from `PrefixKeyFunc` and `HashKeyFunc` steps
whose hasher constructors return the same initial state on each call, in any run of successive
invocations every invocation on the key `k` returns the result the pipeline gives on `k` in
the initial world state: two invocations on `k` agree, whatever was transformed before or in
between. -/
theorem pipeline_deterministic {σ : Type} (steps : List (Step σ))
    (hfresh : ∀ st ∈ steps, st.Fresh) (ks : List String) (s : σ) (i j : Nat) (k : String)
    (hi : ks[i]? = some k) (hj : ks[j]? = some k) :
    (invokeAll (MultiKeyFunc (steps.map Step.toKeyFunc)) ks s)[i]?
        = some (MultiKeyFunc (steps.map Step.toKeyFunc) k s).1 ∧
      (invokeAll (MultiKeyFunc (steps.map Step.toKeyFunc)) ks s)[j]?
        = some (MultiKeyFunc (steps.map Step.toKeyFunc) k s).1 := by
  obtain ⟨t, ht⟩ := invokeAll_getElem? (MultiKeyFunc (steps.map Step.toKeyFunc)) ks s i k hi
  obtain ⟨u, hu⟩ := invokeAll_getElem? (MultiKeyFunc (steps.map Step.toKeyFunc)) ks s j k hj
  rw [ht, hu, pipeline_result_indep steps hfresh k t s, pipeline_result_indep steps hfresh k u s]
  exact ⟨rfl, rfl⟩

/-- An entry that is not live at some time is not live later. -/
theorem Cacher.live_none_mono {V : Type} (c : Cacher V) (now now1 : Nat) (sk : String)
    (h : c.live now sk = none) (hle : now ≤ now1) : c.live now1 sk = none := by
  unfold Cacher.live at h ⊢
  rcases hf : c.entries.find? (fun en => en.1 = sk) with _ | ⟨k0, v, expiry⟩
  · rw [hf]
  · rw [hf] at h ⊢
    by_cases hlt : now < expiry
    · simp [hlt] at h
    · have hlt1 : ¬ now1 < expiry := by omega
      simp [hlt1]

/-- The result of `Read` on an open Cacher when the storage key holds no live entry. -/
theorem Cacher.Read_miss {V : Type} (c : Cacher V) (now : Nat) (k sk : String)
    (hopen : c.closed = false) (hk : (c.keyFunc k ()).1 = (sk, none))
    (hl : c.live now sk = none) :
    c.Read now k = ((some ErrNotFound, none), { c with trace := c.trace ++ [Event.get sk] }) := by
  simp [Cacher.Read, hopen, hk, hl]

/-- The result of `Read` on an open Cacher when the storage key holds a live entry. -/
theorem Cacher.Read_hit {V : Type} (c : Cacher V) (now : Nat) (k sk : String) (v : V)
    (hopen : c.closed = false) (hk : (c.keyFunc k ()).1 = (sk, none))
    (hl : c.live now sk = some v) :
    c.Read now k = ((none, some v), { c with trace := c.trace ++ [Event.get sk] }) := by
  simp [Cacher.Read, hopen, hk, hl]

/-- The entry just put is live until its expiry. -/
theorem Cacher.live_put {V : Type} (c c1 : Cacher V) (now now1 : Nat) (sk : String) (v : V)
    (ttl : Nat) (hent : c1.entries = c.put now sk v ttl) (hlt : now1 < now + ttl) :
    c1.live now1 sk = some v := by
  simp [Cacher.live, hent, Cacher.put, List.find?, hlt]

/-- C9: on an open Cacher, for a key whose storage key `sk` holds no live entry and a compute
function that fails with `e`, `Fetch` returns `e` and delivers nothing, leaves the entries as
they were, performs a backend get and the compute run but no backend set, and a `Read` of the
key at any later time returns `ErrNotFound`. -/
theorem Fetch_compute_error {V : Type} (c : Cacher V) (now now1 : Nat) (k sk : String)
    (ttl : Nat) (fn : FetchFunc V) (v : V) (e : Error)
    (hopen : c.closed = false) (hk : (c.keyFunc k ()).1 = (sk, none))
    (hmiss : c.live now sk = none) (hfn : fn () = (v, some e)) (hle : now ≤ now1) :
    (c.Fetch now k ttl (some fn)).1 = (some e, none) ∧
      (c.Fetch now k ttl (some fn)).2.entries = c.entries ∧
      (c.Fetch now k ttl (some fn)).2.trace = c.trace ++ [Event.get sk, Event.compute] ∧
      (∀ (sk1 : String) (ttl1 : Nat),
        Event.set sk1 ttl1 ∈ (c.Fetch now k ttl (some fn)).2.trace → Event.set sk1 ttl1 ∈ c.trace) ∧
      ((c.Fetch now k ttl (some fn)).2.Read now1 k).1 = (some ErrNotFound, none) := by
  have hF : c.Fetch now k ttl (some fn)
      = ((some e, none), { c with trace := c.trace ++ [Event.get sk, Event.compute] }) := by
    simp [Cacher.Fetch, hopen, hk, hmiss, hfn]
  rw [hF]
  refine ⟨rfl, rfl, rfl, ?_, ?_⟩
  · intro sk1 ttl1 hmem
    simpa using hmem
  · have hl : Cacher.live { c with trace := c.trace ++ [Event.get sk, Event.compute] } now1 sk
        = none := Cacher.live_none_mono c now now1 sk hmiss hle
    exact congrArg Prod.fst
      (Cacher.Read_miss { c with trace := c.trace ++ [Event.get sk, Event.compute] }
        now1 k sk hopen hk hl)

theorem Fetch_compute_error_witness :
    sampleCacher.closed = false ∧ (sampleCacher.keyFunc "fresh" ()).1 = ("fresh", none) ∧
      sampleCacher.live 1 "fresh" = none ∧
      (fun _ => ("", some ⟨"compute failed"⟩) : FetchFunc String) () = ("", some ⟨"compute failed"⟩) ∧
      1 ≤ 2 ∧
      ((sampleCacher.Fetch 1 "fresh" 10 (some fun _ => ("", some ⟨"compute failed"⟩))).1
          = (some ⟨"compute failed"⟩, none) ∧
        (sampleCacher.Fetch 1 "fresh" 10 (some fun _ => ("", some ⟨"compute failed"⟩))).2.entries
          = sampleCacher.entries ∧
        (sampleCacher.Fetch 1 "fresh" 10 (some fun _ => ("", some ⟨"compute failed"⟩))).2.trace
          = sampleCacher.trace ++ [Event.get "fresh", Event.compute] ∧
        (∀ (sk1 : String) (ttl1 : Nat),
          Event.set sk1 ttl1 ∈
            (sampleCacher.Fetch 1 "fresh" 10 (some fun _ => ("", some ⟨"compute failed"⟩))).2.trace →
          Event.set sk1 ttl1 ∈ sampleCacher.trace) ∧
        ((sampleCacher.Fetch 1 "fresh" 10
            (some fun _ => ("", some ⟨"compute failed"⟩))).2.Read 2 "fresh").1
          = (some ErrNotFound, none)) :=
  ⟨rfl, by decide, by decide, rfl, by decide,
    Fetch_compute_error sampleCacher 1 2 "fresh" "fresh" 10 _ "" ⟨"compute failed"⟩
      rfl (by decide) (by decide) rfl (by decide)⟩

/-- C10: on an open Cacher, for a key whose storage key `sk` holds no live entry and a compute
function that succeeds with `v`, `Fetch` returns a nil error and delivers `v`, stores `v` under
`sk` with expiry `now + ttl` by one backend set after the get and the compute run, and a `Read`
of the key at a time before the expiry returns `v` with a backend get and no compute run. -/
theorem Fetch_populates_on_miss {V : Type} (c : Cacher V) (now now1 : Nat) (k sk : String)
    (ttl : Nat) (fn : FetchFunc V) (v : V)
    (hopen : c.closed = false) (hk : (c.keyFunc k ()).1 = (sk, none))
    (hmiss : c.live now sk = none) (hfn : fn () = (v, none)) (hlt : now1 < now + ttl) :
    (c.Fetch now k ttl (some fn)).1 = (none, some v) ∧
      (c.Fetch now k ttl (some fn)).2.entries.find? (fun en => en.1 = sk)
        = some (sk, v, now + ttl) ∧
      (c.Fetch now k ttl (some fn)).2.trace
        = c.trace ++ [Event.get sk, Event.compute, Event.set sk ttl] ∧
      ((c.Fetch now k ttl (some fn)).2.Read now1 k).1 = (none, some v) ∧
      ((c.Fetch now k ttl (some fn)).2.Read now1 k).2.trace
        = (c.Fetch now k ttl (some fn)).2.trace ++ [Event.get sk] := by
  have hF : c.Fetch now k ttl (some fn)
      = ((none, some v),
          { c with
            entries := c.put now sk v ttl
            trace := c.trace ++ [Event.get sk, Event.compute, Event.set sk ttl] }) := by
    simp [Cacher.Fetch, hopen, hk, hmiss, hfn]
  rw [hF]
  have hl : Cacher.live
      { c with
        entries := c.put now sk v ttl
        trace := c.trace ++ [Event.get sk, Event.compute, Event.set sk ttl] } now1 sk
      = some v := Cacher.live_put c _ now now1 sk v ttl rfl hlt
  refine ⟨rfl, ?_, rfl, ?_, ?_⟩
  · simp [Cacher.put, List.find?]
  · exact congrArg Prod.fst
      (Cacher.Read_hit
        { c with
          entries := c.put now sk v ttl
          trace := c.trace ++ [Event.get sk, Event.compute, Event.set sk ttl] }
        now1 k sk v hopen hk hl)
  · exact congrArg (fun r => r.2.trace)
      (Cacher.Read_hit
        { c with
          entries := c.put now sk v ttl
          trace := c.trace ++ [Event.get sk, Event.compute, Event.set sk ttl] }
        now1 k sk v hopen hk hl)

theorem Fetch_populates_on_miss_witness :
    sampleCacher.closed = false ∧ (sampleCacher.keyFunc "fresh" ()).1 = ("fresh", none) ∧
      sampleCacher.live 1 "fresh" = none ∧
      (fun _ => ("computed", none) : FetchFunc String) () = ("computed", none) ∧
      7 < 1 + 10 ∧
      ((sampleCacher.Fetch 1 "fresh" 10 (some fun _ => ("computed", none))).1
          = (none, some "computed") ∧
        (sampleCacher.Fetch 1 "fresh" 10 (some fun _ => ("computed", none))).2.entries.find?
            (fun en => en.1 = "fresh")
          = some ("fresh", "computed", 1 + 10) ∧
        (sampleCacher.Fetch 1 "fresh" 10 (some fun _ => ("computed", none))).2.trace
          = sampleCacher.trace ++ [Event.get "fresh", Event.compute, Event.set "fresh" 10] ∧
        ((sampleCacher.Fetch 1 "fresh" 10 (some fun _ => ("computed", none))).2.Read 7 "fresh").1
          = (none, some "computed") ∧
        ((sampleCacher.Fetch 1 "fresh" 10
            (some fun _ => ("computed", none))).2.Read 7 "fresh").2.trace
          = (sampleCacher.Fetch 1 "fresh" 10 (some fun _ => ("computed", none))).2.trace
            ++ [Event.get "fresh"]) :=
  ⟨rfl, by decide, by decide, rfl, by decide,
    Fetch_populates_on_miss sampleCacher 1 7 "fresh" "fresh" 10 _ "computed"
      rfl (by decide) (by decide) rfl (by decide)⟩

theorem pipeline_deterministic_witness :
    (∀ st ∈ sampleSteps, st.Fresh) ∧
      ["abc", "zz", "abc"][0]? = some "abc" ∧ ["abc", "zz", "abc"][2]? = some "abc" ∧
      ((invokeAll (MultiKeyFunc (sampleSteps.map Step.toKeyFunc)) ["abc", "zz", "abc"] 0)[0]?
          = some (MultiKeyFunc (sampleSteps.map Step.toKeyFunc) "abc" 0).1 ∧
        (invokeAll (MultiKeyFunc (sampleSteps.map Step.toKeyFunc)) ["abc", "zz", "abc"] 0)[2]?
          = some (MultiKeyFunc (sampleSteps.map Step.toKeyFunc) "abc" 0).1) :=
  ⟨sampleSteps_fresh, rfl, rfl,
    pipeline_deterministic sampleSteps sampleSteps_fresh ["abc", "zz", "abc"] 0 0 2 "abc" rfl rfl⟩

/-- The operations of a closed Cacher leave it as it is. -/
theorem Cacher.step_closed {V : Type} (c : Cacher V) (hc : c.closed = true) (op : Op V) :
    c.step op = c := by
  cases op <;> simp [Cacher.step, Cacher.Fetch, Cacher.Read, Cacher.Write, Cacher.Delete,
    Cacher.Close, hc]

/-- A sequence of operations leaves a closed Cacher as it is. -/
theorem Cacher.run_closed {V : Type} (c : Cacher V) (hc : c.closed = true) (ops : List (Op V)) :
    c.run ops = c := by
  induction ops with
  | nil => rfl
  | cons op rest ih =>
    simp only [Cacher.run, List.foldl_cons] at ih ⊢
    rw [Cacher.step_closed c hc op]
    exact ih

/-- The Cacher `Close` leaves behind is closed. -/
theorem Cacher.Close_closed {V : Type} (c : Cacher V) : c.Close.2.closed = true := by
  by_cases hc : c.closed = true
  · simp [Cacher.Close, hc]
  · simp [Cacher.Close, hc]

/-- C11: after `Close`, whatever sequence of operations follows, the Cacher is still closed and
is the very state `Close` left behind (same entries, same trace: no backend access), and every
`Fetch`, `Read`, `Write` and `Delete` on it returns `ErrStopped`, delivers nothing and leaves
the state, trace included, as it is. -/
theorem closed_is_absorbing {V : Type} (c : Cacher V) (ops : List (Op V)) :
    (c.Close.2.run ops).closed = true ∧
      c.Close.2.run ops = c.Close.2 ∧
      (∀ (now : Nat) (key : String) (ttl : Nat) (computeFn : Option (FetchFunc V)),
        (c.Close.2.run ops).Fetch now key ttl computeFn
          = ((some ErrStopped, none), c.Close.2.run ops)) ∧
      (∀ (now : Nat) (key : String),
        (c.Close.2.run ops).Read now key = ((some ErrStopped, none), c.Close.2.run ops)) ∧
      (∀ (now : Nat) (key : String) (v : V) (ttl : Nat),
        (c.Close.2.run ops).Write now key v ttl = (some ErrStopped, c.Close.2.run ops)) ∧
      (∀ key : String,
        (c.Close.2.run ops).Delete key = (some ErrStopped, c.Close.2.run ops)) := by
  have hc := Cacher.Close_closed c
  have hr := Cacher.run_closed c.Close.2 hc ops
  rw [hr]
  refine ⟨hc, rfl, ?_, ?_, ?_, ?_⟩
  · intro now key ttl computeFn
    simp [Cacher.Fetch, hc]
  · intro now key
    simp [Cacher.Read, hc]
  · intro now key v ttl
    simp [Cacher.Write, hc]
  · intro key
    simp [Cacher.Delete, hc]

/-- A closed sample Cacher rejects a `Fetch` of a live key without touching the backend. -/
theorem closed_sampleCacher_eval :
    ((sampleCacher.Close.2.run [Op.read 1 "old", Op.close]).Fetch 1 "old" 10
        (some fun _ => ("computed", none))).1 = (some ErrStopped, none) ∧
      (sampleCacher.Close.2.run [Op.read 1 "old", Op.close]).trace = [Event.close] := by
  decide

/-- C12: `SaveSMSConfig` is exactly one call of the handle: `Create` when the ID is zero and
`Save` otherwise, whose error and world state it returns unchanged; on a handle that logs its
operations the log grows by that one operation and the error is the one it reported. -/
theorem SaveSMSConfig_one_operation {E σ : Type} (db : Database E σ) (s : SMSConfig E) (w : σ)
    (outcome : DBOp E → Option Error) (log : List (DBOp E)) :
    (s.Model.ID = 0 → db.SaveSMSConfig s w = db.db.Create s w) ∧
      (s.Model.ID ≠ 0 → db.SaveSMSConfig s w = db.db.Save s w) ∧
      (recordingDB outcome).SaveSMSConfig s log
        = (outcome (if s.Model.ID = 0 then DBOp.create s else DBOp.save s),
            log ++ [if s.Model.ID = 0 then DBOp.create s else DBOp.save s]) := by
  refine ⟨?_, ?_, ?_⟩
  · intro h
    simp [Database.SaveSMSConfig, h]
  · intro h
    simp [Database.SaveSMSConfig, h]
  · by_cases h : s.Model.ID = 0
    · simp [Database.SaveSMSConfig, recordingDB, h]
    · simp [Database.SaveSMSConfig, recordingDB, h]

/-- A record without ID is created, a record with an ID is saved, and a failure is passed on. -/
theorem SaveSMSConfig_eval :
    (recordingDB (fun _ => none)).SaveSMSConfig (sampleSMSConfig 0) []
        = (none, [DBOp.create (sampleSMSConfig 0)]) ∧
      (recordingDB (fun _ => some ⟨"duplicate key"⟩)).SaveSMSConfig (sampleSMSConfig 7) []
        = (some ⟨"duplicate key"⟩, [DBOp.save (sampleSMSConfig 7)]) := by
  decide

/-- C13: the pipeline of `fs ++ gs` is the pipeline of the two pipelines `MultiKeyFunc fs` and
`MultiKeyFunc gs`: same key, same error and same state on every input, failing or not. -/
theorem MultiKeyFunc_append_nested {σ : Type} (fs gs : List (KeyFunc σ)) (k : String) (s : σ) :
    MultiKeyFunc (fs ++ gs) k s = MultiKeyFunc [MultiKeyFunc fs, MultiKeyFunc gs] k s := by
  rw [MultiKeyFunc_append]
  rcases hfs : MultiKeyFunc fs k s with ⟨⟨out, _ | e⟩, s1⟩
  · rw [MultiKeyFunc_cons_ok _ _ k out s s1 hfs, MultiKeyFunc_singleton]
    rcases hgs : MultiKeyFunc gs out s1 with ⟨⟨out2, _ | e2⟩, s2⟩
    · simp only [hgs]
    · have hk := MultiKeyFunc_err_key gs out out2 e2 s1 s2 hgs
      subst hk
      simp only [hgs]
  · rw [MultiKeyFunc_cons_err _ _ k out e s s1 hfs]

/-- Nesting and flattening agree on a failing run: the second of three steps fails. -/
theorem MultiKeyFunc_append_nested_eval :
    MultiKeyFunc ([countingKeyFunc, failingKeyFunc] ++ [countingKeyFunc]) "k" 0
        = (("", some ⟨"boom"⟩), 2) ∧
      MultiKeyFunc [MultiKeyFunc [countingKeyFunc, failingKeyFunc], MultiKeyFunc [countingKeyFunc]]
        "k" 0 = (("", some ⟨"boom"⟩), 2) := by
  decide

/-- C14: for a fixed prefix `p`, `PrefixKeyFunc p` is injective on keys, its result starts with
`p`, as a string and as bytes, and the length of the result, in bytes and in characters, is
the length of `p` plus the length of the key. -/
theorem PrefixKeyFunc_injective {σ : Type} (p : String) (s : σ) :
    (∀ (k1 k2 : String) (s1 s2 : σ),
        (PrefixKeyFunc p k1 s1).1.1 = (PrefixKeyFunc p k2 s2).1.1 → k1 = k2) ∧
      (∀ k : String, p.data <+: (PrefixKeyFunc p k s).1.1.data ∧
        bytesOf p <+: bytesOf (PrefixKeyFunc p k s).1.1) ∧
      (∀ k : String,
        (bytesOf (PrefixKeyFunc p k s).1.1).length = (bytesOf p).length + (bytesOf k).length ∧
        (PrefixKeyFunc p k s).1.1.length = p.length + k.length) := by
  refine ⟨?_, ?_, ?_⟩
  · intro k1 k2 s1 s2 h
    rw [PrefixKeyFunc_eq, PrefixKeyFunc_eq] at h
    simp only at h
    have hd : p.data ++ k1.data = p.data ++ k2.data := by
      have := congrArg String.data h
      simpa [String.data_append] using this
    exact String.ext (List.append_cancel_left hd)
  · intro k
    rw [PrefixKeyFunc_eq]
    simp only [String.data_append, bytesOf_append]
    exact ⟨List.prefix_append _ _, List.prefix_append _ _⟩
  · intro k
    rw [PrefixKeyFunc_eq]
    simp only [bytesOf_append, List.length_append, String.length_append, and_self]

/-- C15: for a hasher whose `Write` consumes the bytes of `k1` and of `k2`, the keys
`HashKeyFunc` returns for them are equal exactly when the two digests are equal byte
sequences; each key is the `%x` rendering of its digest alone, and when both digests have
`size` bytes both keys have `2 * size` characters. -/
theorem HashKeyFunc_eq_iff_digest_eq {σ H : Type} (impl : Hash H) (hasher : σ → H × σ)
    (k1 k2 : String) (s1 s2 : σ) (n1 n2 : Int) (h1 h2 : H)
    (hw1 : impl.Write (hasher s1).1 (bytesOf k1) = ((n1, none), h1))
    (hn1 : ((bytesOf k1).length : Int) ≤ n1)
    (hw2 : impl.Write (hasher s2).1 (bytesOf k2) = ((n2, none), h2))
    (hn2 : ((bytesOf k2).length : Int) ≤ n2) :
    ((HashKeyFunc impl hasher k1 s1).1 = (HashKeyFunc impl hasher k2 s2).1 ↔
        impl.Sum h1 [] = impl.Sum h2 []) ∧
      (HashKeyFunc impl hasher k1 s1).1 = (hexEncode (impl.Sum h1 []), none) ∧
      (HashKeyFunc impl hasher k2 s2).1 = (hexEncode (impl.Sum h2 []), none) ∧
      (∀ size : Nat, (impl.Sum h1 []).length = size → (impl.Sum h2 []).length = size →
        (HashKeyFunc impl hasher k1 s1).1.1.length = 2 * size ∧
        (HashKeyFunc impl hasher k2 s2).1.1.length = 2 * size) := by
  rw [HashKeyFunc_ok impl hasher k1 s1 n1 h1 hw1 hn1,
    HashKeyFunc_ok impl hasher k2 s2 n2 h2 hw2 hn2]
  refine ⟨?_, rfl, rfl, ?_⟩
  · constructor
    · intro h
      simp only [Prod.mk.injEq, and_true] at h
      exact hexEncode_inj _ _ h
    · intro h
      rw [h]
  · intro size e1 e2
    simp only [hexEncode, String.length, hexChars_length, e1, e2, and_self]

theorem HashKeyFunc_eq_iff_digest_eq_witness :
    sumHash.Write (newListHash 0).1 (bytesOf "abc") = ((3, none), [97, 98, 99]) ∧
      (((bytesOf "abc").length : Int) ≤ 3) ∧
      sumHash.Write (newListHash 5).1 (bytesOf "cba") = ((3, none), [99, 98, 97]) ∧
      (((bytesOf "cba").length : Int) ≤ 3) ∧
      (((HashKeyFunc sumHash newListHash "abc" 0).1 = (HashKeyFunc sumHash newListHash "cba" 5).1 ↔
          sumHash.Sum [97, 98, 99] [] = sumHash.Sum [99, 98, 97] []) ∧
        (HashKeyFunc sumHash newListHash "abc" 0).1
          = (hexEncode (sumHash.Sum [97, 98, 99] []), none) ∧
        (HashKeyFunc sumHash newListHash "cba" 5).1
          = (hexEncode (sumHash.Sum [99, 98, 97] []), none) ∧
        (∀ size : Nat, (sumHash.Sum [97, 98, 99] []).length = size →
          (sumHash.Sum [99, 98, 97] []).length = size →
          (HashKeyFunc sumHash newListHash "abc" 0).1.1.length = 2 * size ∧
          (HashKeyFunc sumHash newListHash "cba" 5).1.1.length = 2 * size)) :=
  ⟨by decide, by decide, by decide, by decide,
    HashKeyFunc_eq_iff_digest_eq sumHash newListHash "abc" "cba" 0 5 3 3 [97, 98, 99] [99, 98, 97]
      (by decide) (by decide) (by decide) (by decide)⟩

/-- C16: two chained prefixes: the pipeline of `PrefixKeyFunc a` and then `PrefixKeyFunc b`
returns what `PrefixKeyFunc (b ++ a)` returns, the key `b ++ a ++ k` with a nil error: the
prefix applied last stands first. -/
theorem MultiKeyFunc_prefix_prefix {σ : Type} (a b k : String) (s : σ) :
    MultiKeyFunc [PrefixKeyFunc a, PrefixKeyFunc b] k s = PrefixKeyFunc (b ++ a) k s ∧
      PrefixKeyFunc (b ++ a) k s = ((b ++ a ++ k, none), s) := by
  refine ⟨?_, PrefixKeyFunc_eq (b ++ a) k s⟩
  rw [MultiKeyFunc_cons_ok _ _ k (a ++ k) s s (PrefixKeyFunc_eq a k s),
    MultiKeyFunc_cons_ok _ _ (a ++ k) (b ++ (a ++ k)) s s (PrefixKeyFunc_eq b (a ++ k) s),
    MultiKeyFunc_nil, PrefixKeyFunc_eq, String.append_assoc]

/-- Two chained prefixes on a sample key, also when one of them is empty. -/
theorem MultiKeyFunc_prefix_prefix_eval :
    MultiKeyFunc [PrefixKeyFunc "a:", PrefixKeyFunc "b:"] "k" () = (("b:a:k", none), ()) ∧
      MultiKeyFunc [PrefixKeyFunc "", PrefixKeyFunc "b:"] "k" () = (("b:k", none), ()) := by
  decide

/-- C17: the pipeline of no steps returns the key unchanged with a nil error, in the same
state; the pipeline of one step `f` returns the error and the state of `f`, so it succeeds
exactly when `f` does, and then it returns the key of `f`. -/
theorem MultiKeyFunc_nil_singleton {σ : Type} (f : KeyFunc σ) (k : String) (s : σ) :
    MultiKeyFunc ([] : List (KeyFunc σ)) k s = ((k, none), s) ∧
      (MultiKeyFunc [f] k s).1.2 = (f k s).1.2 ∧
      (MultiKeyFunc [f] k s).2 = (f k s).2 ∧
      ((MultiKeyFunc [f] k s).1.2 = none ↔ (f k s).1.2 = none) ∧
      ((f k s).1.2 = none → MultiKeyFunc [f] k s = f k s) := by
  rw [MultiKeyFunc_singleton]
  rcases hf : f k s with ⟨⟨out, _ | e⟩, s1⟩
  · simp [MultiKeyFunc]
  · simp [MultiKeyFunc]

/-- A single failing step: the error and the state are those of the step, the key is empty. -/
theorem MultiKeyFunc_singleton_eval :
    failingKeyFunc "k" 0 = (("k?", some ⟨"boom"⟩), 1) ∧
      MultiKeyFunc [failingKeyFunc] "k" 0 = (("", some ⟨"boom"⟩), 1) := by
  decide

end Cache
